import Mathlib

/-!
# Verification of the IP-range geolocation core of `src/data_processing.py`

Shallow embedding of the functions `ip_to_int` and `merge_with_geo`.
Keys and bounds are modelled as `Nat` (the code casts them to `int64`;
all values in play are non-negative 32-bit quantities), dataframes as
lists, and the pandas calls by the list functions they compute:

* `sort_values`   — a stable sort on the named column (`List.insertionSort`);
* `pd.merge_asof(..., direction='backward')` — for each left key, the last
  row of the (sorted) right table whose `lower_bound_ip_address` is `≤` the
  key (`asofBackward`);
* the range-validation mask and `fillna('Unknown')` — the `if` in
  `lookupSorted`, rendering a failed validation or an absent candidate as
  the country string `"Unknown"`.
-/

/-- A row of the IP-to-country table: `lower_bound_ip_address`,
`upper_bound_ip_address`, `country`. -/
structure IpRange where
  lower : Nat
  upper : Nat
  country : String
deriving DecidableEq

/-- Outcome of geolocating one key: `matched c` when the validated asof
candidate has country `c`, otherwise `unmatched` (rendered `"Unknown"`). -/
inductive LookupResult where
  | matched (country : String)
  | unmatched
deriving DecidableEq

/-- Rendering of a lookup result as the `country` column value. -/
def countryOf : LookupResult → String
  | .matched c => c
  | .unmatched => "Unknown"

/-- `ip_df.sort_values('lower_bound_ip_address')`: stable sort of the range
table by lower bound (ties keep their input order). -/
def sortRanges (R : List IpRange) : List IpRange :=
  R.insertionSort (fun a b => a.lower ≤ b.lower)

/-- `fraud_df.sort_values('ip_int')`: stable sort of the key column. -/
def sortKeys (ks : List Nat) : List Nat :=
  ks.insertionSort (· ≤ ·)

/-- `pd.merge_asof(..., direction='backward')` per left key: the last row of
the right table whose lower bound is `≤ k`, `none` when no row qualifies. -/
def asofBackward (S : List IpRange) (k : Nat) : Option IpRange :=
  match S with
  | [] => none
  | r :: rest =>
    match asofBackward rest k with
    | some r' => some r'
    | none => if r.lower ≤ k then some r else none

/-- Per-row verdict of `merge_with_geo` over an already sorted range table:
asof candidate, then the validation mask
`(ip_int >= lower) & (ip_int <= upper)`; a failed mask or a missing
candidate becomes `unmatched` (the code writes `'Unknown'`). -/
def lookupSorted (S : List IpRange) (k : Nat) : LookupResult :=
  match asofBackward S k with
  | none => .unmatched
  | some r => if r.lower ≤ k ∧ k ≤ r.upper then .matched r.country else .unmatched

/-- The single-key geolocation performed by `merge_with_geo`: sort the range
table by lower bound, take the backward asof candidate, validate the range. -/
def lookupGeo (R : List IpRange) (k : Nat) : LookupResult :=
  lookupSorted (sortRanges R) k

/-- `merge_with_geo` at the level of keys and countries: both tables are
sorted, the asof join runs over the sorted keys, and each surviving row
carries its key and the validated country (else `"Unknown"`). The output
rows are in sorted-key order, exactly as the function returns them. -/
def merge_with_geo (fraud_df : List Nat) (ip_df : List IpRange) : List (Nat × String) :=
  let ipSorted := sortRanges ip_df
  (sortKeys fraud_df).map fun k =>
    match asofBackward ipSorted k with
    | none => (k, "Unknown")
    | some r => if r.lower ≤ k ∧ k ≤ r.upper then (k, r.country) else (k, "Unknown")

/-! ## Basic facts about the asof candidate -/

theorem asofBackward_mem {S : List IpRange} {k : Nat} {r : IpRange}
    (h : asofBackward S k = some r) : r ∈ S ∧ r.lower ≤ k := by
  induction S with
  | nil => simp [asofBackward] at h
  | cons x rest ih =>
    simp only [asofBackward] at h
    cases hrest : asofBackward rest k with
    | some r' =>
      rw [hrest] at h
      obtain ⟨hm, hk⟩ := ih (hrest.trans (by injection h with h; rw [h]))
      exact ⟨List.mem_cons_of_mem _ hm, hk⟩
    | none =>
      rw [hrest] at h
      by_cases hx : x.lower ≤ k
      · rw [if_pos hx] at h
        injection h with h
        subst h
        exact ⟨List.mem_cons_self _ _, hx⟩
      · rw [if_neg hx] at h
        exact absurd h (by simp)

theorem asofBackward_none {S : List IpRange} {k : Nat}
    (h : asofBackward S k = none) : ∀ r ∈ S, k < r.lower := by
  induction S with
  | nil => simp
  | cons x rest ih =>
    simp only [asofBackward] at h
    cases hrest : asofBackward rest k with
    | some r' => rw [hrest] at h; exact absurd h (by simp)
    | none =>
      rw [hrest] at h
      intro r hr
      rcases List.mem_cons.1 hr with rfl | hmem
      · by_cases hx : r.lower ≤ k
        · rw [if_pos hx] at h; exact absurd h (by simp)
        · exact Nat.lt_of_not_le hx
      · exact ih hrest r hmem

/-- In a table sorted ascending by lower bound, the backward asof candidate
has the greatest lower bound among all rows with lower bound `≤ k`. -/
theorem asofBackward_isMax {S : List IpRange} {k : Nat} {r : IpRange}
    (hs : S.Pairwise (fun a b => a.lower ≤ b.lower))
    (h : asofBackward S k = some r) :
    ∀ r' ∈ S, r'.lower ≤ k → r'.lower ≤ r.lower := by
  induction S with
  | nil => simp [asofBackward] at h
  | cons x rest ih =>
    simp only [asofBackward] at h
    have hx_rest : ∀ b ∈ rest, x.lower ≤ b.lower := (List.pairwise_cons.1 hs).1
    have hs_rest : rest.Pairwise (fun a b => a.lower ≤ b.lower) :=
      (List.pairwise_cons.1 hs).2
    cases hrest : asofBackward rest k with
    | some r' =>
      rw [hrest] at h
      injection h with h
      subst h
      intro r' hr' hk'
      rcases List.mem_cons.1 hr' with rfl | hmem
      · exact hx_rest _ (asofBackward_mem hrest).1
      · exact ih hs_rest hrest r' hmem hk'
    | none =>
      rw [hrest] at h
      by_cases hx : x.lower ≤ k
      · rw [if_pos hx] at h
        injection h with h
        subst h
        intro r' hr' hk'
        rcases List.mem_cons.1 hr' with rfl | hmem
        · exact Nat.le_refl _
        · exact absurd hk' (Nat.not_le_of_lt (asofBackward_none hrest r' hmem))
      · rw [if_neg hx] at h
        exact absurd h (by simp)

/-! ## Facts about the sorted range table -/

theorem sortRanges_perm (R : List IpRange) : (sortRanges R).Perm R :=
  List.perm_insertionSort _ R

theorem sortRanges_sorted (R : List IpRange) :
    (sortRanges R).Pairwise (fun a b => a.lower ≤ b.lower) := by
  haveI : IsTotal IpRange (fun a b => a.lower ≤ b.lower) :=
    ⟨fun a b => Nat.le_total a.lower b.lower⟩
  haveI : IsTrans IpRange (fun a b => a.lower ≤ b.lower) :=
    ⟨fun _ _ _ hab hbc => Nat.le_trans hab hbc⟩
  exact List.sorted_insertionSort _ R

/-- Soundness half of the lookup: a `matched` verdict exhibits a row of the
original table that contains the key and supplies the country. -/
theorem lookupGeo_matched_sound {R : List IpRange} {k : Nat} {c : String}
    (h : lookupGeo R k = .matched c) :
    ∃ r ∈ R, r.lower ≤ k ∧ k ≤ r.upper ∧ r.country = c := by
  unfold lookupGeo lookupSorted at h
  cases hasof : asofBackward (sortRanges R) k with
  | none => rw [hasof] at h; exact absurd h (by simp)
  | some r =>
    rw [hasof] at h
    dsimp only at h
    by_cases hv : r.lower ≤ k ∧ k ≤ r.upper
    · rw [if_pos hv] at h
      injection h with h
      exact ⟨r, (sortRanges_perm R).mem_iff.1 (asofBackward_mem hasof).1,
        hv.1, hv.2, h⟩
    · rw [if_neg hv] at h; exact absurd h (by simp)

/-- A key contained in no row of the table is `unmatched`. -/
theorem lookupGeo_unmatched_of_no_container {R : List IpRange} {k : Nat}
    (h : ∀ r ∈ R, ¬(r.lower ≤ k ∧ k ≤ r.upper)) :
    lookupGeo R k = .unmatched := by
  cases hl : lookupGeo R k with
  | unmatched => rfl
  | matched c =>
    obtain ⟨r, hmem, h1, h2, _⟩ := lookupGeo_matched_sound hl
    exact absurd ⟨h1, h2⟩ (h r hmem)

/-! ## `ip_to_int`: the `socket.inet_aton` / `struct.unpack("!I", ...)` model

`socket.inet_aton` accepts the numbers-and-dots grammar: one to four
dot-separated C numerals (leading `0x`/`0X` hex, leading `0` octal, else
decimal), bounded per form, and `struct.unpack("!I", ...)` reassembles the
four network-order bytes as an unsigned big-endian 32-bit integer.  The
`except` branch of `ip_to_int` is modelled by `Option.getD 0`: any parse
failure yields the sentinel key `0`. -/

/-- Value of one character as a digit in the given base. -/
def digitVal (base : Nat) (ch : Char) : Option Nat :=
  let n := ch.toNat
  let v : Option Nat :=
    if 48 ≤ n ∧ n ≤ 57 then some (n - 48)
    else if 97 ≤ n ∧ n ≤ 102 then some (n - 87)
    else if 65 ≤ n ∧ n ≤ 70 then some (n - 55)
    else none
  match v with
  | some d => if d < base then some d else none
  | none => none

/-- Accumulate the digits of a numeral in the given base. -/
def parseDigitsAux (base : Nat) (acc : Nat) : List Char → Option Nat
  | [] => some acc
  | ch :: cs =>
    match digitVal base ch with
    | some d => parseDigitsAux base (base * acc + d) cs
    | none => none

/-- A non-empty all-digits numeral in the given base; `none` otherwise. -/
def parseDigits (base : Nat) : List Char → Option Nat
  | [] => none
  | ch :: cs => parseDigitsAux base 0 (ch :: cs)

/-- One dot-separated component, read C-style: `0x`/`0X` prefix means hex,
a remaining leading `0` means octal, otherwise decimal. -/
def parseNumC (s : List Char) : Option Nat :=
  match s with
  | '0' :: 'x' :: rest => parseDigits 16 rest
  | '0' :: 'X' :: rest => parseDigits 16 rest
  | '0' :: rest => if rest.isEmpty then some 0 else parseDigits 8 rest
  | _ => parseDigits 10 s

/-- Split a character list at every `'.'` (empty components preserved). -/
def splitDots : List Char → List (List Char)
  | [] => [[]]
  | '.' :: rest => [] :: splitDots rest
  | ch :: rest =>
    match splitDots rest with
    | [] => [[ch]]
    | p :: ps => (ch :: p) :: ps

/-- Per-form bound checks and big-endian reassembly of the 1–4 parsed
numerals (`a`, `a.b`, `a.b.c`, `a.b.c.d` forms of the
numbers-and-dots grammar). -/
def combineParts : List Nat → Option Nat
  | [a] => if a < 4294967296 then some a else none
  | [a, b] => if a < 256 ∧ b < 16777216 then some (a * 16777216 + b) else none
  | [a, b, c] =>
    if a < 256 ∧ b < 256 ∧ c < 65536 then
      some (a * 16777216 + b * 65536 + c)
    else none
  | [a, b, c, d] =>
    if a < 256 ∧ b < 256 ∧ c < 256 ∧ d < 256 then
      some (a * 16777216 + b * 65536 + c * 256 + d)
    else none
  | _ => none

/-- Parse every dot-separated component; fail if any component fails. -/
def parseParts : List (List Char) → Option (List Nat)
  | [] => some []
  | p :: ps =>
    match parseNumC p, parseParts ps with
    | some v, some vs => some (v :: vs)
    | _, _ => none

/-- `socket.inet_aton` followed by `struct.unpack("!I", ...)`: parse the 1–4
dot-separated numerals, check the per-form bounds, and reassemble the
big-endian 32-bit value.  `none` is the `socket.error` case. -/
def inetAton (s : String) : Option Nat :=
  match parseParts (splitDots s.data) with
  | none => none
  | some vs => combineParts vs

/-- `ip_to_int`: the `try` branch unpacks the parsed address, the `except`
branch returns `0`. -/
def ip_to_int (s : String) : Nat :=
  (inetAton s).getD 0

/-- Every result of the bound-checked reassembly fits in 32 bits. -/
theorem combineParts_lt {vs : List Nat} {v : Nat} (h : combineParts vs = some v) :
    v < 4294967296 := by
  match vs with
  | [] => simp [combineParts] at h
  | [a] =>
    rw [combineParts] at h
    by_cases hb : a < 4294967296
    · rw [if_pos hb] at h; injection h with h; omega
    · rw [if_neg hb] at h; exact absurd h (by simp)
  | [a, b] =>
    rw [combineParts] at h
    by_cases hb : a < 256 ∧ b < 16777216
    · rw [if_pos hb] at h; injection h with h; omega
    · rw [if_neg hb] at h; exact absurd h (by simp)
  | [a, b, c] =>
    rw [combineParts] at h
    by_cases hb : a < 256 ∧ b < 256 ∧ c < 65536
    · rw [if_pos hb] at h; injection h with h; omega
    · rw [if_neg hb] at h; exact absurd h (by simp)
  | [a, b, c, d] =>
    rw [combineParts] at h
    by_cases hb : a < 256 ∧ b < 256 ∧ c < 256 ∧ d < 256
    · rw [if_pos hb] at h; injection h with h; omega
    · rw [if_neg hb] at h; exact absurd h (by simp)
  | _ :: _ :: _ :: _ :: _ :: _ => simp [combineParts] at h

/-- Every successfully parsed address fits in 32 bits. -/
theorem inetAton_lt {s : String} {v : Nat} (h : inetAton s = some v) :
    v < 4294967296 := by
  unfold inetAton at h
  cases hm : parseParts (splitDots s.data) with
  | none => rw [hm] at h; exact absurd h (by simp)
  | some vs =>
    rw [hm] at h
    exact combineParts_lt h

/-! ## The caller-visible frame of `merge_with_geo`

The source rebinds its parameters to `.copy()`s before the first column
assignment, so every mutation (`astype`, new `ip_int` column, the sorts,
the `country` writes) happens on the copies.  The state-passing wrapper
makes the caller's two frames explicit and returns them alongside the
merged result. -/

def merge_with_geo_call (fraud_df : List Nat) (ip_df : List IpRange) :
    List (Nat × String) × List Nat × List IpRange :=
  -- fraud_df = fraud_df.copy(); ip_df = ip_df.copy()
  let fraud_local := fraud_df
  let ip_local := ip_df
  (merge_with_geo fraud_local ip_local, fraud_df, ip_df)

/-! ## Facts about the batch merge -/

theorem sortKeys_perm (ks : List Nat) : (sortKeys ks).Perm ks :=
  List.perm_insertionSort _ ks

theorem sortKeys_sorted (ks : List Nat) :
    (sortKeys ks).Pairwise (· ≤ ·) := by
  haveI : IsTotal Nat (· ≤ ·) := ⟨Nat.le_total⟩
  haveI : IsTrans Nat (· ≤ ·) := ⟨fun _ _ _ => Nat.le_trans⟩
  exact List.sorted_insertionSort _ ks

/-- Two ranges with no common point (for ranges with `lower ≤ upper` this is
exactly interval disjointness). -/
def rangesDisjoint (a b : IpRange) : Prop :=
  a.upper < b.lower ∨ b.upper < a.lower

instance : DecidableRel rangesDisjoint := fun a b =>
  inferInstanceAs (Decidable (a.upper < b.lower ∨ b.upper < a.lower))

theorem rangesDisjoint_symm : Symmetric rangesDisjoint :=
  fun _ _ h => Or.symm h

/-- A table sorted by lower bound whose lower bounds are pairwise distinct is
strictly sorted. -/
theorem pairwise_lt_of_le_nodup {S : List IpRange}
    (hs : S.Pairwise (fun a b => a.lower ≤ b.lower))
    (hnd : (S.map IpRange.lower).Nodup) :
    S.Pairwise (fun a b => a.lower < b.lower) := by
  have hne : S.Pairwise (fun a b => a.lower ≠ b.lower) :=
    List.pairwise_map.1 hnd
  clear hnd
  induction S with
  | nil => exact List.Pairwise.nil
  | cons x rest ih =>
    rw [List.pairwise_cons] at hs hne ⊢
    exact ⟨fun b hb => Nat.lt_of_le_of_ne (hs.1 b hb) (hne.1 b hb),
      ih hs.2 hne.2⟩

/-- Sorting is insensitive to the construction order of the table when no two
rows share a lower bound. -/
theorem sortRanges_eq_of_perm {R₁ R₂ : List IpRange} (hperm : R₁.Perm R₂)
    (hnd : (R₁.map IpRange.lower).Nodup) :
    sortRanges R₁ = sortRanges R₂ := by
  haveI : IsAntisymm IpRange (fun a b => a.lower < b.lower) :=
    ⟨fun a b h h' => absurd (Nat.lt_trans h h') (Nat.lt_irrefl _)⟩
  have hp : (sortRanges R₁).Perm (sortRanges R₂) :=
    (sortRanges_perm R₁).trans (hperm.trans (sortRanges_perm R₂).symm)
  have hnd₁ : ((sortRanges R₁).map IpRange.lower).Nodup :=
    (((sortRanges_perm R₁).map IpRange.lower).nodup_iff).2 hnd
  have hnd₂ : ((sortRanges R₂).map IpRange.lower).Nodup :=
    (((sortRanges_perm R₂).map IpRange.lower).nodup_iff).2
      (((hperm.map IpRange.lower).nodup_iff).1 hnd)
  exact List.eq_of_perm_of_sorted hp
    (pairwise_lt_of_le_nodup (sortRanges_sorted R₁) hnd₁)
    (pairwise_lt_of_le_nodup (sortRanges_sorted R₂) hnd₂)

/-- The per-row branch of `merge_with_geo` is the key paired with the
rendered single-key lookup. -/
theorem merge_with_geo_eq_map (fraud_df : List Nat) (ip_df : List IpRange) :
    merge_with_geo fraud_df ip_df =
      (sortKeys fraud_df).map (fun k => (k, countryOf (lookupGeo ip_df k))) := by
  unfold merge_with_geo
  refine List.map_congr_left fun k _ => ?_
  unfold lookupGeo lookupSorted countryOf
  cases asofBackward (sortRanges ip_df) k with
  | none => rfl
  | some r =>
    dsimp only
    by_cases hv : r.lower ≤ k ∧ k ≤ r.upper
    · rw [if_pos hv, if_pos hv]
    · rw [if_neg hv, if_neg hv]

/-! ## Claims -/

/-- C1 (counterexample): the containment-iff fails as stated.  With ranges
`{10,50,"A"}` and `{20,30,"B"}`, the key `35` is contained in the wide range
`A`, but its backward asof candidate is the narrower `B` (greatest lower
bound `≤ 35`), whose upper bound `30 < 35` fails validation, so the code
returns `Unmatched`. -/
theorem c1_counterexample :
    (∃ r ∈ ([⟨10, 50, "A"⟩, ⟨20, 30, "B"⟩] : List IpRange),
      r.lower ≤ 35 ∧ 35 ≤ r.upper) ∧
    lookupGeo [⟨10, 50, "A"⟩, ⟨20, 30, "B"⟩] 35 = .unmatched := by
  decide

/-- C1 (amended): provided every range satisfies `lower ≤ upper` and the
ranges are pairwise disjoint, `lookup(k)` returns `Matched(c)` iff some
range of `R` satisfies `lower ≤ k ≤ upper` with country `c`.  Without
disjointness the code returns the verdict of the single backward asof
candidate only, so a key contained in a wide range whose candidate is a
narrower range ending before the key is `Unmatched`. -/
theorem c1_lookup_matched_iff_of_disjoint (R : List IpRange) (k : Nat)
    (c : String) (hval : ∀ r ∈ R, r.lower ≤ r.upper)
    (hdisj : R.Pairwise rangesDisjoint) :
    lookupGeo R k = .matched c ↔
      ∃ r ∈ R, r.lower ≤ k ∧ k ≤ r.upper ∧ r.country = c := by
  constructor
  · exact lookupGeo_matched_sound
  · rintro ⟨rs, hmem, h1, h2, hc⟩
    have hmemS : rs ∈ sortRanges R := (sortRanges_perm R).mem_iff.2 hmem
    cases hasof : asofBackward (sortRanges R) k with
    | none =>
      exact absurd h1 (Nat.not_le_of_lt (asofBackward_none hasof rs hmemS))
    | some r =>
      have hrmem : r ∈ R := (sortRanges_perm R).mem_iff.1 (asofBackward_mem hasof).1
      have hrk : r.lower ≤ k := (asofBackward_mem hasof).2
      have hmax : rs.lower ≤ r.lower :=
        asofBackward_isMax (sortRanges_sorted R) hasof rs hmemS h1
      have hr_eq : r = rs := by
        by_contra hne
        rcases List.Pairwise.forall rangesDisjoint_symm hdisj hrmem hmem hne with hd | hd
        · exact absurd (Nat.le_trans hmax (hval r hrmem)) (Nat.not_le_of_lt hd)
        · exact absurd (Nat.le_trans hrk h2) (Nat.not_le_of_lt hd)
      subst hr_eq
      unfold lookupGeo lookupSorted
      rw [hasof]
      dsimp only
      rw [if_pos ⟨h1, h2⟩, hc]

/-- C1 (witness): on the disjoint table `{10,20,"A"}`, `{30,40,"B"}` the
amended iff yields `lookup(35) = Matched("B")`. -/
theorem c1_witness : lookupGeo [⟨10, 20, "A"⟩, ⟨30, 40, "B"⟩] 35 = .matched "B" :=
  (c1_lookup_matched_iff_of_disjoint [⟨10, 20, "A"⟩, ⟨30, 40, "B"⟩] 35 "B"
    (by decide) (by decide)).mpr ⟨⟨30, 40, "B"⟩, by decide, by decide, by decide, rfl⟩

/-- C2 (counterexample): the batch result is not re-aligned to the original
input order.  For the unsorted key sequence `[5, 3]` the function returns
the rows for `3` and then `5`, so `result[0]` corresponds to `keys[1]`. -/
theorem c2_counterexample :
    merge_with_geo [5, 3] [⟨3, 3, "A"⟩] = [(3, "A"), (5, "Unknown")] ∧
    (merge_with_geo [5, 3] [⟨3, 3, "A"⟩]).map Prod.fst ≠ [5, 3] := by
  decide

/-- C2 (amended): the batch result has the same length as the input and is,
row for row, a permutation of the per-key lookup results — every input key
appears paired with its own lookup verdict — but the rows come back sorted
ascending by key, not re-aligned to the original input order. -/
theorem c2_batch_sorted_by_key (R : List IpRange) (keys : List Nat) :
    (merge_with_geo keys R).length = keys.length ∧
    (merge_with_geo keys R).Perm
      (keys.map fun k => (k, countryOf (lookupGeo R k))) ∧
    ((merge_with_geo keys R).map Prod.fst).Pairwise (· ≤ ·) := by
  refine ⟨?_, ?_, ?_⟩
  · rw [merge_with_geo_eq_map, List.length_map]
    exact (sortKeys_perm keys).length_eq
  · rw [merge_with_geo_eq_map]
    exact (sortKeys_perm keys).map _
  · rw [merge_with_geo_eq_map, List.map_map]
    have hid : (Prod.fst ∘ fun k => (k, countryOf (lookupGeo R k))) = id := rfl
    rw [hid, List.map_id]
    exact sortKeys_sorted keys

/-- C3 (counterexample): no ascending-upper tie-break is applied.  Two ranges
sharing the lower bound `10` keep their construction order under the stable
sort, the asof candidate is the last qualifying row, and permuting the
construction order flips the winner for key `25` from `"B"` to `"A"` — the
result is not deterministic across construction input orders. -/
theorem c3_counterexample :
    lookupGeo [⟨10, 50, "A"⟩, ⟨10, 30, "B"⟩] 25 = .matched "B" ∧
    lookupGeo [⟨10, 30, "B"⟩, ⟨10, 50, "A"⟩] 25 = .matched "A" ∧
    lookupGeo [⟨10, 50, "A"⟩, ⟨10, 30, "B"⟩] 25 ≠
      lookupGeo [⟨10, 30, "B"⟩, ⟨10, 50, "A"⟩] 25 := by
  decide

/-- C3 (amended): the code breaks ties in `lower` by post-sort position (the
sort is stable, so ranges sharing a lower bound keep their construction
order and the last-listed qualifying row wins), not by ascending `upper`.
For ranges with distinct lower bounds the qualifying range with the
greatest lower bound wins deterministically: on `{10,50,"A"}`,
`{20,30,"B"}`, `lookup(25) = Matched("B")` under either construction
order. -/
theorem c3_positional_tie_break :
    lookupGeo [⟨10, 50, "A"⟩, ⟨20, 30, "B"⟩] 25 = .matched "B" ∧
    lookupGeo [⟨20, 30, "B"⟩, ⟨10, 50, "A"⟩] 25 = .matched "B" ∧
    lookupGeo [⟨10, 50, "A"⟩, ⟨10, 30, "B"⟩] 25 = .matched "B" ∧
    (∀ a b : IpRange, a.lower = b.lower → sortRanges [a, b] = [a, b]) := by
  refine ⟨by decide, by decide, by decide, fun a b h => ?_⟩
  unfold sortRanges
  simp [List.insertionSort, List.orderedInsert, h, Nat.le_refl]

/-- C3 (witness): two ranges sharing lower bound `5` keep their construction
order in the sorted table. -/
theorem c3_witness : sortRanges [⟨5, 9, "C"⟩, ⟨5, 7, "D"⟩] = [⟨5, 9, "C"⟩, ⟨5, 7, "D"⟩] :=
  c3_positional_tie_break.2.2.2 ⟨5, 9, "C"⟩ ⟨5, 7, "D"⟩ rfl

/-- C4 (counterexample): building from a permutation of the same table does
not always yield identical lookup results.  Two ranges sharing lower bound
`7` swap their post-sort position when the construction order is permuted,
flipping `lookup(20)`. -/
theorem c4_counterexample :
    ([⟨7, 50, "A"⟩, ⟨7, 30, "B"⟩] : List IpRange).Perm
      [⟨7, 30, "B"⟩, ⟨7, 50, "A"⟩] ∧
    lookupGeo [⟨7, 50, "A"⟩, ⟨7, 30, "B"⟩] 20 ≠
      lookupGeo [⟨7, 30, "B"⟩, ⟨7, 50, "A"⟩] 20 := by
  decide

/-- C4 (amended): provided no two ranges share a lower bound, building the
index from any permutation of the table yields identical lookup results for
every key. -/
theorem c4_perm_invariant_of_distinct_lowers (R₁ R₂ : List IpRange) (k : Nat)
    (hperm : R₁.Perm R₂) (hnd : (R₁.map IpRange.lower).Nodup) :
    lookupGeo R₁ k = lookupGeo R₂ k := by
  unfold lookupGeo
  rw [sortRanges_eq_of_perm hperm hnd]

/-- C4 (witness): the two construction orders of `{10,50,"A"}`, `{20,30,"B"}`
agree on key `25`. -/
theorem c4_witness :
    lookupGeo [⟨10, 50, "A"⟩, ⟨20, 30, "B"⟩] 25 =
      lookupGeo [⟨20, 30, "B"⟩, ⟨10, 50, "A"⟩] 25 :=
  c4_perm_invariant_of_distinct_lowers _ _ 25 (by decide) (by decide)

/-- C5 (confirmed): boundary keys match inclusively.  For any valid single
range both endpoints are `Matched`, and on `{100,200,"X"}` the code gives
`lookup(99) = Unmatched`, `lookup(100) = lookup(200) = Matched("X")`,
`lookup(201) = Unmatched`. -/
theorem c5_boundary_inclusive (l u : Nat) (ctry : String) (h : l ≤ u) :
    lookupGeo [⟨l, u, ctry⟩] l = .matched ctry ∧
    lookupGeo [⟨l, u, ctry⟩] u = .matched ctry ∧
    lookupGeo [⟨100, 200, "X"⟩] 99 = .unmatched ∧
    lookupGeo [⟨100, 200, "X"⟩] 100 = .matched "X" ∧
    lookupGeo [⟨100, 200, "X"⟩] 200 = .matched "X" ∧
    lookupGeo [⟨100, 200, "X"⟩] 201 = .unmatched := by
  refine ⟨?_, ?_, by decide, by decide, by decide, by decide⟩
  · simp [lookupGeo, lookupSorted, sortRanges, asofBackward,
      List.insertionSort, List.orderedInsert, h]
  · simp [lookupGeo, lookupSorted, sortRanges, asofBackward,
      List.insertionSort, List.orderedInsert, h]

/-- C5 (witness): inclusive endpoints of `{300,400,"Y"}`. -/
theorem c5_witness :
    lookupGeo [⟨300, 400, "Y"⟩] 300 = .matched "Y" ∧
    lookupGeo [⟨300, 400, "Y"⟩] 400 = .matched "Y" :=
  ⟨(c5_boundary_inclusive 300 400 "Y" (by decide)).1,
   (c5_boundary_inclusive 300 400 "Y" (by decide)).2.1⟩

/-- C6 (confirmed): a key contained in no range — below all lower bounds or
in a gap — is `Unmatched`, rendered as the country `"Unknown"`. -/
theorem c6_no_container_unmatched (R : List IpRange) (k : Nat)
    (h : ∀ r ∈ R, ¬(r.lower ≤ k ∧ k ≤ r.upper)) :
    lookupGeo R k = .unmatched ∧ countryOf (lookupGeo R k) = "Unknown" := by
  have h1 := lookupGeo_unmatched_of_no_container h
  exact ⟨h1, by rw [h1]; rfl⟩

/-- C6 (witness): the gap key `25` between `{10,20,"A"}` and `{30,40,"B"}`
is `Unmatched`. -/
theorem c6_witness : lookupGeo [⟨10, 20, "A"⟩, ⟨30, 40, "B"⟩] 25 = .unmatched :=
  (c6_no_container_unmatched [⟨10, 20, "A"⟩, ⟨30, 40, "B"⟩] 25 (by decide)).1

/-- C7 (confirmed): a string `inet_aton` rejects is normalized by the
`except` branch to the sentinel key `0` (never an exception — the embedding
of `ip_to_int` is total by construction), and the sentinel is `Unmatched`
against any table all of whose ranges start above `0`. -/
theorem c7_malformed_ip_fail_open (s : String) (R : List IpRange)
    (hfail : inetAton s = none) (hR : ∀ r ∈ R, 0 < r.lower) :
    ip_to_int s = 0 ∧ lookupGeo R (ip_to_int s) = .unmatched := by
  have h0 : ip_to_int s = 0 := by unfold ip_to_int; rw [hfail]; rfl
  refine ⟨h0, ?_⟩
  rw [h0]
  exact lookupGeo_unmatched_of_no_container fun r hr hc =>
    absurd hc.1 (Nat.not_le_of_lt (hR r hr))

/-- C7 (witness): the unparseable string `"not.an.ip"` maps to `0`, which is
`Unmatched` against `{10,20,"A"}`. -/
theorem c7_witness :
    ip_to_int "not.an.ip" = 0 ∧
    lookupGeo [⟨10, 20, "A"⟩] (ip_to_int "not.an.ip") = .unmatched :=
  c7_malformed_ip_fail_open "not.an.ip" [⟨10, 20, "A"⟩] rfl (by decide)

/-- C8 (confirmed): degenerate inputs are non-fatal.  The empty range table
leaves every key `Unmatched`; the empty key sequence yields the empty
result; and any `Matched(c)` verdict comes from a range that contains the
key — in particular from a range with `lower ≤ upper`, so an inverted range
(`lower > upper`) is indexed but never supplies a match. -/
theorem c8_degenerate_inputs (R : List IpRange) (k : Nat) (c : String) :
    lookupGeo [] k = .unmatched ∧
    merge_with_geo [] R = [] ∧
    (lookupGeo R k = .matched c →
      ∃ r ∈ R, r.lower ≤ r.upper ∧ r.lower ≤ k ∧ k ≤ r.upper ∧ r.country = c) := by
  refine ⟨rfl, rfl, fun h => ?_⟩
  obtain ⟨r, hmem, h1, h2, hc⟩ := lookupGeo_matched_sound h
  exact ⟨r, hmem, Nat.le_trans h1 h2, h1, h2, hc⟩

/-- C8 (witness): the matched key `15` on `{10,20,"A"}` exhibits its
containing, non-inverted range. -/
theorem c8_witness :
    ∃ r ∈ ([⟨10, 20, "A"⟩] : List IpRange),
      r.lower ≤ r.upper ∧ r.lower ≤ 15 ∧ 15 ≤ r.upper ∧ r.country = "A" :=
  (c8_degenerate_inputs [⟨10, 20, "A"⟩] 15 "A").2.2 (by decide)

/-- C9 (confirmed): `merge_with_geo` first rebinds both parameters to
copies, so every subsequent mutation targets the copies; the caller's
`fraud_df` and `ip_df` come back from the call unchanged, alongside the
merged result. -/
theorem c9_frame_preserved (fraud_df : List Nat) (ip_df : List IpRange) :
    (merge_with_geo_call fraud_df ip_df).2.1 = fraud_df ∧
    (merge_with_geo_call fraud_df ip_df).2.2 = ip_df ∧
    (merge_with_geo_call fraud_df ip_df).1 = merge_with_geo fraud_df ip_df :=
  ⟨rfl, rfl, rfl⟩

/-- C10 (confirmed): `ip_to_int` always lands in `[0, 2^32)`; a parse
failure yields `0`, and a valid dotted quad `a.b.c.d` is unpacked as the
unsigned big-endian 32-bit integer `((a·256+b)·256+c)·256+d`. -/
theorem c10_u32_range (s : String) :
    ip_to_int s < 4294967296 ∧
    (inetAton s = none → ip_to_int s = 0) ∧
    (∀ pa pb pc pd va vb vc vd,
      splitDots s.data = [pa, pb, pc, pd] →
      parseNumC pa = some va → parseNumC pb = some vb →
      parseNumC pc = some vc → parseNumC pd = some vd →
      va < 256 → vb < 256 → vc < 256 → vd < 256 →
      ip_to_int s = ((va * 256 + vb) * 256 + vc) * 256 + vd) := by
  refine ⟨?_, ?_, ?_⟩
  · unfold ip_to_int
    cases h : inetAton s with
    | none => decide
    | some v => exact inetAton_lt h
  · intro h
    unfold ip_to_int
    rw [h]
    rfl
  · intro pa pb pc pd va vb vc vd hsplit hpa hpb hpc hpd ha hb hc hd
    unfold ip_to_int inetAton
    rw [hsplit]
    have hmap : parseParts [pa, pb, pc, pd] = some [va, vb, vc, vd] := by
      simp [parseParts, hpa, hpb, hpc, hpd]
    rw [hmap]
    dsimp only
    rw [combineParts, if_pos ⟨ha, hb, hc, hd⟩]
    dsimp only [Option.getD]
    omega

/-- C10 (witness): `"1.2.3.4"` unpacks to `16909060` and fits in 32 bits. -/
theorem c10_witness :
    ip_to_int "1.2.3.4" = ((1 * 256 + 2) * 256 + 3) * 256 + 4 ∧
    ip_to_int "1.2.3.4" < 4294967296 :=
  ⟨(c10_u32_range "1.2.3.4").2.2 ['1'] ['2'] ['3'] ['4'] 1 2 3 4 rfl rfl rfl rfl
    rfl (by decide) (by decide) (by decide) (by decide),
   (c10_u32_range "1.2.3.4").1⟩
